import Mathlib

/-!
Verification of the two visualization scripts in this repository.

Script one (`dirac_fourier_gui.py`) approximates a Dirac delta by a narrowing
rectangular pulse and shows its Fourier transform; script two
(`fourier_limit.py`) compares discrete Fourier-series coefficients of a
periodic rectangular pulse, computed by trapezoidal integration, against the
closed-form continuous Fourier transform of one pulse.

The numeric functions are embedded over the real and complex numbers; numpy
arrays become functions of the sample index, numpy's NaN-repair step on
`sin(x)/x` becomes the explicit `x = 0` branch it realizes, and the `np.trapz`
rule is written out as the finite sum it computes.
-/

open Real Filter Topology

noncomputable section

namespace DiracGui

/-- Embeds `rect` from `dirac_fourier_gui.py`:
`np.where(np.abs(t) <= width/2, 1.0, 0.0)`. -/
def rect (t width : ℝ) : ℝ := if |t| ≤ width / 2 then 1 else 0

/-- Embeds `dirac_rect`: `(1.0/epsilon) * rect(t, epsilon)`. -/
def dirac_rect (t epsilon : ℝ) : ℝ := (1 / epsilon) * rect t epsilon

/-- Embeds `compute_ft`. For `epsilon < 0.005` the code returns `np.ones_like(f)`.
Otherwise it computes `sin(x)/x` with `x = pi*f*epsilon`; in numpy this is NaN
exactly where `x = 0` (it is `sin 0 / 0 = 0/0` there), and the line
`y[np.isnan(y)] = 1.0` replaces those entries by `1`, which the `x = 0`
branch makes explicit. -/
def compute_ft (f epsilon : ℝ) : ℝ :=
  if epsilon < 0.005 then 1
  else if π * f * epsilon = 0 then 1
  else Real.sin (π * f * epsilon) / (π * f * epsilon)

/-- Slider lower bound `min_width = 0.001` from `main`. -/
def min_width : ℝ := 0.001

/-- Slider upper bound `max_width = 2.0` from `main`. -/
def max_width : ℝ := 2.0

/-- Initial slider value `init_width = 0.5` from `main`. -/
def init_width : ℝ := 0.5

/-- Embeds `np.linspace(a, b, num)` (with the default `endpoint=True`):
sample `i` of `num` equally spaced points from `a` to `b`. -/
def linspace (a b : ℝ) (num : ℕ) (i : ℕ) : ℝ := a + i * (b - a) / ((num : ℝ) - 1)

/-- Embeds `np.logspace(a, b, num)`, which is `10.0 ** np.linspace(a, b, num)`. -/
def logspace (a b : ℝ) (num : ℕ) (i : ℕ) : ℝ := (10 : ℝ) ^ linspace a b num i

/-- Embeds the frame-sequence choice in `play_clicked`: if the current slider
value is at or below `min_width` the animation runs from `max_width` down to
`min_width`, otherwise from the current value down to `min_width`; either way
via `np.logspace(np.log10 start, np.log10 stop, 100)`. -/
def animation_frames (current_width : ℝ) (i : ℕ) : ℝ :=
  if current_width ≤ min_width then
    logspace (logb 10 max_width) (logb 10 min_width) 100 i
  else
    logspace (logb 10 current_width) (logb 10 min_width) 100 i

/-- The animation frame array as a list: `np.logspace(..., 100)` has 100 entries. -/
def animation_frames_list (current_width : ℝ) : List ℝ :=
  (List.range 100).map (animation_frames current_width)

/-- An externally visible GUI effect of the top-level code: showing the
blocking error dialog that carries the caught exception. -/
inductive GuiAction (E : Type) where
  | showError (e : E)

/-- Embeds the `__main__` block of `dirac_fourier_gui.py`: it runs `main()`;
on a normal return nothing further happens, and on an exception `e` it shows
`messagebox.showerror(...)` and then executes `raise e`, re-raising the same
exception. The argument is the outcome of `main()`, the result pairs the
emitted GUI effects with the outcome that propagates to the caller. -/
def dirac_gui_toplevel {E : Type} (result : Except E Unit) :
    List (GuiAction E) × Except E Unit :=
  match result with
  | Except.ok u => ([], Except.ok u)
  | Except.error e => ([GuiAction.showError e], Except.error e)

/-- Embeds the top level of `fourier_limit.py`: the module body contains no
`try`/`except`, so any outcome propagates unchanged with no handler effect. -/
def fourier_limit_toplevel {E : Type} (result : Except E Unit) :
    List (GuiAction E) × Except E Unit :=
  ([], result)

end DiracGui

namespace FourierLimit

/-- Fixed pulse width `T1 = 1.0` from `fourier_limit.py`. -/
def T1 : ℝ := 1.0

/-- Embeds `x_periodic_time_domain`: `np.mod(t, T)` is `t - T*⌊t/T⌋` for the
divisors `T > 0` the slider provides, and the result is `1` where the residue
lies in `[0, T1)` and `0` otherwise. -/
def x_periodic_time_domain (t T : ℝ) : ℝ :=
  if 0 ≤ t - T * ⌊t / T⌋ ∧ t - T * ⌊t / T⌋ < T1 then 1 else 0

/-- Embeds `n_max = int(np.floor(f_max * T))` from `compute_fourier_series`. -/
def n_max (T f_max : ℝ) : ℤ := ⌊f_max * T⌋

/-- Embeds `n_vals = np.arange(-n_max, n_max + 1)`: the arange of integers
from `-n_max` (inclusive) to `n_max + 1` (exclusive), which is empty when the
upper end does not exceed the lower end. -/
def n_vals (T f_max : ℝ) : List ℤ :=
  (List.range (2 * n_max T f_max + 1).toNat).map (fun k : ℕ => -n_max T f_max + (k : ℤ))

/-- Embeds `fn = n_vals / T`: the harmonic frequencies returned by
`compute_fourier_series`. -/
def fn (T f_max : ℝ) : List ℝ := (n_vals T f_max).map (fun n : ℤ => (n : ℝ) / T)

/-- Embeds `t_int = np.linspace(0, T, N, endpoint=False)`: sample `k` is
`k*T/N`. The script uses `N = 10001`. -/
def t_int (T : ℝ) (N : ℕ) (k : ℕ) : ℝ := k * T / N

/-- Embeds `x_int = np.where(t_int < T1, 1.0, 0.0)`. -/
def x_int (T : ℝ) (N : ℕ) (k : ℕ) : ℝ := if t_int T N k < T1 then 1 else 0

/-- Embeds the factor `np.exp(-1j * 2 * np.pi * (n / T) * t)` of the
integrand in `compute_fourier_series`. -/
def exp_term (T : ℝ) (n : ℤ) (t : ℝ) : ℂ :=
  Complex.exp (-Complex.I * 2 * (π : ℂ) * (((n : ℝ) / T : ℝ) : ℂ) * (t : ℂ))

/-- Embeds `np.trapz(y, x)` on arrays of length `N`:
the sum over consecutive pairs of `(x[k+1]-x[k]) * (y[k]+y[k+1]) / 2`. -/
def trapz (y : ℕ → ℂ) (x : ℕ → ℝ) (N : ℕ) : ℂ :=
  ∑ k ∈ Finset.range (N - 1), ((x (k + 1) - x k : ℝ) : ℂ) * (y k + y (k + 1)) / 2

/-- Embeds one coefficient of `compute_fourier_series`:
`Cn_val = (1.0 / T) * np.trapz(x_int * exp_term, t_int)` with `N` integration
samples (the script uses `N = 10001`). -/
def Cn (T : ℝ) (n : ℤ) (N : ℕ) : ℂ :=
  ((1 / T : ℝ) : ℂ) *
    trapz (fun k => ((x_int T N k : ℝ) : ℂ) * exp_term T n (t_int T N k)) (t_int T N) N

/-- The array `x_int * exp_term` whose trapezoidal integral
`compute_fourier_series` takes: sample `k` of the integrand. -/
def integrand (T : ℝ) (n : ℤ) (N : ℕ) (k : ℕ) : ℂ :=
  ((x_int T N k : ℝ) : ℂ) * exp_term T n (t_int T N k)

/-- Embeds `continuous_transform_rect`: the closed-form transform
`(1 - exp(-j2πfT1))/(j2πf)` on the samples with `f ≠ 0`, and the directly
assigned value `T1` on the samples with `f = 0`. -/
def continuous_transform_rect (f : ℝ) : ℂ :=
  if f ≠ 0 then
    (1 - Complex.exp (-Complex.I * 2 * (π : ℂ) * (f : ℂ) * (T1 : ℂ))) /
      (Complex.I * 2 * (π : ℂ) * (f : ℂ))
  else (T1 : ℂ)

end FourierLimit

end

namespace DiracGui

/-- C1: for every time sample `t` and every width `epsilon > 0`,
`dirac_rect t epsilon` is `1/epsilon` when `|t| ≤ epsilon/2` and `0`
otherwise: a rectangular pulse of height `1/epsilon` and width `epsilon`. -/
theorem dirac_rect_is_scaled_rect (t epsilon : ℝ) (h : 0 < epsilon) :
    dirac_rect t epsilon = if |t| ≤ epsilon / 2 then 1 / epsilon else 0 := by
  unfold dirac_rect rect
  split <;> simp

/-- Witness for C1 at `t = 0`, `epsilon = 1`. -/
theorem dirac_rect_is_scaled_rect_witness :
    (0 : ℝ) < 1 ∧ dirac_rect 0 1 = if |(0 : ℝ)| ≤ 1 / 2 then 1 / 1 else 0 :=
  ⟨by norm_num, dirac_rect_is_scaled_rect 0 1 (by norm_num)⟩

/-- C2: `compute_ft f epsilon` is the constant `1` when `epsilon` is below the
threshold `0.005`, and otherwise equals `sin(π f ε)/(π f ε)` with the value at
`f = 0` equal to `1`. -/
theorem compute_ft_cases (f epsilon : ℝ) :
    (epsilon < 0.005 → compute_ft f epsilon = 1) ∧
    (0.005 ≤ epsilon →
      compute_ft f epsilon =
        if f = 0 then 1 else Real.sin (π * f * epsilon) / (π * f * epsilon)) := by
  constructor
  · intro h
    simp [compute_ft, h]
  · intro h
    have hε : epsilon ≠ 0 := by intro h0; rw [h0] at h; norm_num at h
    unfold compute_ft
    rw [if_neg (not_lt.mpr h)]
    by_cases hf : f = 0
    · simp [hf]
    · rw [if_neg, if_neg hf]
      intro hx
      rcases mul_eq_zero.mp hx with h1 | h1
      · rcases mul_eq_zero.mp h1 with h2 | h2
        · exact Real.pi_ne_zero h2
        · exact hf h2
      · exact hε h1

/-- Witness for C2: below the threshold at `epsilon = 0.001`, and above it
at `f = 1`, `epsilon = 1`. -/
theorem compute_ft_cases_witness :
    compute_ft 0 0.001 = 1 ∧
    compute_ft 1 1 = Real.sin (π * 1 * 1) / (π * 1 * 1) := by
  constructor
  · exact (compute_ft_cases 0 0.001).1 (by norm_num)
  · have h := (compute_ft_cases 1 1).2 (by norm_num)
    rwa [if_neg (by norm_num : (1 : ℝ) ≠ 0)] at h

/-- The first sample of a 100-point logspace is `10 ^ a`. -/
lemma logspace_zero (a b : ℝ) : logspace a b 100 0 = (10 : ℝ) ^ a := by
  have h : linspace a b 100 0 = a := by
    unfold linspace
    push_cast
    ring
  unfold logspace
  rw [h]

/-- The last sample of a 100-point logspace is `10 ^ b`. -/
lemma logspace_last (a b : ℝ) : logspace a b 100 99 = (10 : ℝ) ^ b := by
  have h : linspace a b 100 99 = b := by
    unfold linspace
    push_cast
    ring
  unfold logspace
  rw [h]

/-- Every sample of a 100-point logspace with `b ≤ a` lies in `[10^b, 10^a]`. -/
lemma logspace_bounds (a b : ℝ) (hba : b ≤ a) (i : ℕ) (hi : i ≤ 99) :
    (10 : ℝ) ^ b ≤ logspace a b 100 i ∧ logspace a b 100 i ≤ (10 : ℝ) ^ a := by
  have hi' : (i : ℝ) ≤ 99 := by exact_mod_cast hi
  have hi0 : (0 : ℝ) ≤ (i : ℝ) := Nat.cast_nonneg i
  have hnum : ((100 : ℕ) : ℝ) - 1 = 99 := by norm_num
  unfold logspace linspace
  rw [hnum]
  constructor
  · rw [Real.rpow_le_rpow_left_iff (by norm_num : (1 : ℝ) < 10)]
    nlinarith [mul_nonneg (sub_nonneg.mpr hi') (sub_nonneg.mpr hba)]
  · rw [Real.rpow_le_rpow_left_iff (by norm_num : (1 : ℝ) < 10)]
    nlinarith [mul_nonneg hi0 (sub_nonneg.mpr hba)]

/-- C8: pressing play with the slider strictly above the minimum produces
exactly 100 frames, log-linearly spaced from the current value `w` down to
`min_width = 0.001`, all within the slider bounds `[0.001, 2.0]`. -/
theorem play_animation_frames (w : ℝ) (h1 : min_width < w) (h2 : w ≤ max_width) :
    (animation_frames_list w).length = 100 ∧
    animation_frames w 0 = w ∧
    animation_frames w 99 = min_width ∧
    (∀ i : ℕ, logb 10 (animation_frames w i)
        = logb 10 w + i * (logb 10 min_width - logb 10 w) / 99) ∧
    (∀ i : ℕ, i < 100 → min_width ≤ animation_frames w i ∧ animation_frames w i ≤ max_width) := by
  have hmin : (0 : ℝ) < min_width := by norm_num [min_width]
  have hw0 : 0 < w := lt_trans hmin h1
  have hsel : ∀ i, animation_frames w i = logspace (logb 10 w) (logb 10 min_width) 100 i := by
    intro i
    unfold animation_frames
    rw [if_neg (not_le.mpr h1)]
  have hba : logb 10 min_width ≤ logb 10 w :=
    Real.logb_le_logb_of_le (by norm_num) hmin h1.le
  refine ⟨?_, ?_, ?_, ?_, ?_⟩
  · simp [animation_frames_list]
  · rw [hsel 0, logspace_zero, Real.rpow_logb (by norm_num) (by norm_num) hw0]
  · rw [hsel 99, logspace_last, Real.rpow_logb (by norm_num) (by norm_num) hmin]
  · intro i
    rw [hsel i]
    unfold logspace
    rw [Real.logb_rpow (by norm_num) (by norm_num)]
    unfold linspace
    push_cast
    ring
  · intro i hi
    have hb := logspace_bounds (logb 10 w) (logb 10 min_width) hba i (by omega)
    rw [hsel i]
    constructor
    · calc min_width = (10 : ℝ) ^ logb 10 min_width :=
            (Real.rpow_logb (by norm_num) (by norm_num) hmin).symm
        _ ≤ _ := hb.1
    · calc logspace (logb 10 w) (logb 10 min_width) 100 i
          ≤ (10 : ℝ) ^ logb 10 w := hb.2
        _ = w := Real.rpow_logb (by norm_num) (by norm_num) hw0
        _ ≤ max_width := h2

/-- Witness for C8 at `w = 1`. -/
theorem play_animation_frames_witness :
    (min_width < (1 : ℝ) ∧ (1 : ℝ) ≤ max_width) ∧
    (animation_frames_list 1).length = 100 ∧ animation_frames 1 0 = 1 := by
  refine ⟨⟨by norm_num [min_width], by norm_num [max_width]⟩, ?_, ?_⟩
  · exact (play_animation_frames 1 (by norm_num [min_width]) (by norm_num [max_width])).1
  · exact (play_animation_frames 1 (by norm_num [min_width]) (by norm_num [max_width])).2.1

/-- C10: pressing play with the slider at or below `min_width` does not start
from the current value: the frames are log-spaced from `max_width = 2.0` down
to `min_width = 0.001`. -/
theorem play_animation_frames_at_min (w : ℝ) (h : w ≤ min_width) :
    animation_frames w = logspace (logb 10 max_width) (logb 10 min_width) 100 ∧
    animation_frames w 0 = max_width ∧
    animation_frames w 99 = min_width ∧
    animation_frames w 0 ≠ w := by
  have hfun : animation_frames w = logspace (logb 10 max_width) (logb 10 min_width) 100 := by
    funext i
    unfold animation_frames
    rw [if_pos h]
  have h0 : animation_frames w 0 = max_width := by
    rw [hfun, logspace_zero,
      Real.rpow_logb (by norm_num) (by norm_num) (by norm_num [max_width])]
  refine ⟨hfun, h0, ?_, ?_⟩
  · rw [hfun, logspace_last,
      Real.rpow_logb (by norm_num) (by norm_num) (by norm_num [min_width])]
  · rw [h0]
    intro heq
    rw [← heq] at h
    norm_num [min_width, max_width] at h

/-- Witness for C10 at `w = 0.001`. -/
theorem play_animation_frames_at_min_witness :
    (0.001 : ℝ) ≤ min_width ∧ animation_frames 0.001 0 = max_width :=
  ⟨by norm_num [min_width],
   (play_animation_frames_at_min 0.001 (by norm_num [min_width])).2.1⟩

/-- C9: if `main()` of script one raises `e`, the top level shows the blocking
error dialog and re-raises the same exception `e`; script two installs no
exception handler, so every outcome propagates unchanged with no effect. -/
theorem toplevel_error_handling (E : Type) (e : E) :
    dirac_gui_toplevel (Except.error e : Except E Unit)
      = ([GuiAction.showError e], Except.error e) ∧
    (∀ r : Except E Unit, fourier_limit_toplevel r = ([], r)) :=
  ⟨rfl, fun _ => rfl⟩

/-- The scaled rectangle is `1/ε` times the indicator of `[-ε/2, ε/2]`. -/
lemma dirac_rect_eq_indicator (epsilon t : ℝ) :
    dirac_rect t epsilon
      = (1 / epsilon) *
        Set.indicator (Set.Icc (-(epsilon / 2)) (epsilon / 2)) (fun _ => (1 : ℝ)) t := by
  unfold dirac_rect rect
  rw [Set.indicator_apply]
  simp only [Set.mem_Icc, ← abs_le]

/-- C5: for every width `epsilon > 0` the pulse `dirac_rect · epsilon` has
unit area: its integral over the real line is exactly `1`. -/
theorem dirac_rect_unit_area (epsilon : ℝ) (h : 0 < epsilon) :
    ∫ t : ℝ, dirac_rect t epsilon = 1 := by
  calc ∫ t : ℝ, dirac_rect t epsilon
      = ∫ t : ℝ, (1 / epsilon) *
          Set.indicator (Set.Icc (-(epsilon / 2)) (epsilon / 2)) (fun _ => (1 : ℝ)) t := by
        simp only [dirac_rect_eq_indicator]
    _ = (1 / epsilon) *
          ∫ t : ℝ, Set.indicator (Set.Icc (-(epsilon / 2)) (epsilon / 2)) (fun _ => (1 : ℝ)) t :=
        MeasureTheory.integral_mul_left _ _
    _ = 1 := by
        rw [MeasureTheory.integral_indicator_const (1 : ℝ) measurableSet_Icc, Real.volume_Icc,
          show epsilon / 2 - -(epsilon / 2) = epsilon by ring,
          ENNReal.toReal_ofReal h.le, smul_eq_mul, mul_one]
        field_simp

/-- Witness for C5 at `epsilon = 1`. -/
theorem dirac_rect_unit_area_witness :
    (0 : ℝ) < 1 ∧ ∫ t : ℝ, dirac_rect t 1 = 1 :=
  ⟨by norm_num, dirac_rect_unit_area 1 (by norm_num)⟩

end DiracGui

namespace FourierLimit

/-- Membership in the harmonic index list is exactly the symmetric range. -/
lemma mem_n_vals (T f_max : ℝ) (n : ℤ) :
    n ∈ n_vals T f_max ↔ -n_max T f_max ≤ n ∧ n ≤ n_max T f_max := by
  unfold n_vals
  rw [List.mem_map]
  constructor
  · rintro ⟨k, hk, rfl⟩
    rw [List.mem_range] at hk
    omega
  · rintro ⟨h1, h2⟩
    refine ⟨(n + n_max T f_max).toNat, ?_, ?_⟩
    · rw [List.mem_range]
      omega
    · omega

/-- C3: for every period `T > 0` (and the fixed `f_max`), the harmonics used by
`compute_fourier_series` are exactly the symmetric range
`-⌊f_max*T⌋ ≤ n ≤ ⌊f_max*T⌋`, and every returned frequency `n/T` satisfies
`|n/T| ≤ f_max`. -/
theorem compute_fourier_series_range (T f_max : ℝ) (hT : 0 < T) :
    (∀ n : ℤ, n ∈ n_vals T f_max ↔ (-⌊f_max * T⌋ ≤ n ∧ n ≤ ⌊f_max * T⌋)) ∧
    (∀ x ∈ fn T f_max, |x| ≤ f_max) := by
  constructor
  · intro n
    simpa [n_max] using mem_n_vals T f_max n
  · intro x hx
    simp only [fn, List.mem_map] at hx
    obtain ⟨n, hn, rfl⟩ := hx
    obtain ⟨h1, h2⟩ := (mem_n_vals T f_max n).mp hn
    rw [abs_div, abs_of_pos hT, div_le_iff₀ hT, abs_le]
    have hfloor : (⌊f_max * T⌋ : ℝ) ≤ f_max * T := Int.floor_le _
    constructor
    · have hc : (-⌊f_max * T⌋ : ℝ) ≤ (n : ℝ) := by exact_mod_cast h1
      push_cast at hc
      linarith
    · have hc : (n : ℝ) ≤ (⌊f_max * T⌋ : ℝ) := by exact_mod_cast h2
      linarith

/-- Witness for C3 at `T = 4`, `f_max = 10`. -/
theorem compute_fourier_series_range_witness :
    (0 : ℝ) < 4 ∧ ((3 : ℤ) ∈ n_vals 4 10 ↔ (-⌊(10 : ℝ) * 4⌋ ≤ 3 ∧ 3 ≤ ⌊(10 : ℝ) * 4⌋)) :=
  ⟨by norm_num, (compute_fourier_series_range 4 10 (by norm_num)).1 3⟩

/-- C4: `continuous_transform_rect` is total: at `f ≠ 0` it is the closed form
whose denominator `j·2π·f` is nonzero, and at `f = 0` the value `T1 = 1` is
assigned directly, so no division by zero is ever evaluated. -/
theorem continuous_transform_rect_total (f : ℝ) (hf : f ≠ 0) :
    continuous_transform_rect f =
      (1 - Complex.exp (-Complex.I * 2 * (π : ℂ) * (f : ℂ) * (T1 : ℂ))) /
        (Complex.I * 2 * (π : ℂ) * (f : ℂ)) ∧
    Complex.I * 2 * (π : ℂ) * (f : ℂ) ≠ 0 ∧
    continuous_transform_rect 0 = (T1 : ℂ) ∧ (T1 : ℝ) = 1 := by
  refine ⟨?_, ?_, ?_, ?_⟩
  · unfold continuous_transform_rect
    rw [if_pos hf]
  · exact mul_ne_zero
      (mul_ne_zero (mul_ne_zero Complex.I_ne_zero two_ne_zero)
        (by exact_mod_cast Real.pi_ne_zero))
      (by exact_mod_cast hf)
  · unfold continuous_transform_rect
    simp
  · norm_num [T1]

/-- Witness for C4 at `f = 1`. -/
theorem continuous_transform_rect_total_witness :
    (1 : ℝ) ≠ 0 ∧ Complex.I * 2 * (π : ℂ) * ((1 : ℝ) : ℂ) ≠ 0 :=
  ⟨by norm_num, (continuous_transform_rect_total 1 (by norm_num)).2.1⟩

/-- C7: every Fourier-series phase `np.angle(Cn)` and every continuous-transform
phase `np.angle(Xf)` lies in the half-open interval `(-π, π]`. -/
theorem phase_mem_Ioc (T : ℝ) (n : ℤ) (N : ℕ) (f : ℝ) :
    Complex.arg (Cn T n N) ∈ Set.Ioc (-π) π ∧
    Complex.arg (continuous_transform_rect f) ∈ Set.Ioc (-π) π :=
  ⟨Complex.arg_mem_Ioc _, Complex.arg_mem_Ioc _⟩

end FourierLimit

namespace FourierLimit

lemma Cn_eq_trapz (T : ℝ) (n : ℤ) (N : ℕ) :
    Cn T n N = ((1 / T : ℝ) : ℂ) * trapz (integrand T n N) (t_int T N) N := rfl

lemma trapz_uniform (T : ℝ) (y : ℕ → ℂ) (M : ℕ) :
    trapz y (t_int T (M + 1)) (M + 1)
      = ((T / ((M : ℝ) + 1)) : ℂ) *
          ((∑ k ∈ Finset.range (M + 1), y k) - (y 0 + y M) / 2) := by
  unfold trapz
  have hstep : (M + 1) - 1 = M := by omega
  rw [hstep]
  have hspace : ∀ k : ℕ, ((t_int T (M + 1) (k + 1) - t_int T (M + 1) k : ℝ) : ℂ)
      = ((T / ((M : ℝ) + 1) : ℝ) : ℂ) := by
    intro k
    unfold t_int
    push_cast
    rw [div_sub_div_same]
    congr 1
    ring
  have hsum1 : ∑ k ∈ Finset.range M, y k = (∑ k ∈ Finset.range (M + 1), y k) - y M := by
    rw [Finset.sum_range_succ]
    ring
  have hsum2 : ∑ k ∈ Finset.range M, y (k + 1)
      = (∑ k ∈ Finset.range (M + 1), y k) - y 0 := by
    rw [Finset.sum_range_succ']
    ring
  calc ∑ k ∈ Finset.range M,
        ((t_int T (M + 1) (k + 1) - t_int T (M + 1) k : ℝ) : ℂ) * (y k + y (k + 1)) / 2
      = ∑ k ∈ Finset.range M,
        ((T / ((M : ℝ) + 1) : ℝ) : ℂ) * (y k + y (k + 1)) / 2 := by
        apply Finset.sum_congr rfl
        intro k _
        rw [hspace k]
    _ = ((T / ((M : ℝ) + 1) : ℝ) : ℂ) / 2 *
          ((∑ k ∈ Finset.range M, y k) + ∑ k ∈ Finset.range M, y (k + 1)) := by
        rw [← Finset.sum_add_distrib, Finset.mul_sum]
        apply Finset.sum_congr rfl
        intro k _
        ring
    _ = ((T / ((M : ℝ) + 1)) : ℂ) *
          ((∑ k ∈ Finset.range (M + 1), y k) - (y 0 + y M) / 2) := by
        rw [hsum1, hsum2]
        push_cast
        ring

lemma integrand_eq (T : ℝ) (n : ℤ) (N : ℕ) (hT : 1 ≤ T) (hN : 0 < N) (k : ℕ) :
    integrand T n N k
      = if k < ⌈(N : ℝ) / T⌉₊ then
          Complex.exp (-Complex.I * 2 * (π : ℂ) * (n : ℂ) / (N : ℂ)) ^ k
        else 0 := by
  have hT0 : (0 : ℝ) < T := lt_of_lt_of_le one_pos hT
  have hN0 : (0 : ℝ) < (N : ℝ) := by exact_mod_cast hN
  have hT1 : T1 = 1 := by norm_num [T1]
  have hcond : (t_int T N k < T1) ↔ k < ⌈(N : ℝ) / T⌉₊ := by
    unfold t_int
    rw [hT1, Nat.lt_ceil, div_lt_one hN0, lt_div_iff₀ hT0]
  by_cases hk : k < ⌈(N : ℝ) / T⌉₊
  · rw [if_pos hk]
    unfold integrand x_int
    rw [if_pos (hcond.mpr hk), Complex.ofReal_one, one_mul]
    unfold exp_term
    rw [← Complex.exp_nat_mul]
    congr 1
    have hTne : (T : ℂ) ≠ 0 := by exact_mod_cast ne_of_gt hT0
    have hNne : ((N : ℕ) : ℂ) ≠ 0 := Nat.cast_ne_zero.mpr hN.ne'
    unfold t_int
    push_cast
    field_simp
    ring
  · rw [if_neg hk]
    unfold integrand x_int
    rw [if_neg (fun hlt => hk (hcond.mp hlt))]
    simp

lemma sum_integrand (T : ℝ) (n : ℤ) (N : ℕ) (hT : 1 ≤ T) (hN : 0 < N) :
    ∑ k ∈ Finset.range N, integrand T n N k
      = ∑ k ∈ Finset.range ⌈(N : ℝ) / T⌉₊,
          Complex.exp (-Complex.I * 2 * (π : ℂ) * (n : ℂ) / (N : ℂ)) ^ k := by
  have hm : ⌈(N : ℝ) / T⌉₊ ≤ N := by
    rw [Nat.ceil_le]
    exact_mod_cast div_le_self (Nat.cast_nonneg N) hT
  have h0 : ∀ x ∈ Finset.range N, x ∉ Finset.range ⌈(N : ℝ) / T⌉₊ → integrand T n N x = 0 := by
    intro x _ hxm
    rw [integrand_eq T n N hT hN x, if_neg]
    simpa using hxm
  rw [← Finset.sum_subset (Finset.range_subset.mpr hm) h0]
  apply Finset.sum_congr rfl
  intro k hk
  rw [integrand_eq T n N hT hN k, if_pos (Finset.mem_range.mp hk)]

lemma abs_exp_term (T : ℝ) (n : ℤ) (t : ℝ) : Complex.abs (exp_term T n t) = 1 := by
  unfold exp_term
  rw [show -Complex.I * 2 * (π : ℂ) * (((n : ℝ) / T : ℝ) : ℂ) * ((t : ℝ) : ℂ)
      = ((-(2 * π * ((n : ℝ) / T) * t) : ℝ) : ℂ) * Complex.I by push_cast; ring]
  exact Complex.abs_exp_ofReal_mul_I _

lemma norm_integrand_le (T : ℝ) (n : ℤ) (N k : ℕ) : Complex.abs (integrand T n N k) ≤ 1 := by
  unfold integrand
  rw [map_mul, abs_exp_term, mul_one, Complex.abs_ofReal]
  unfold x_int
  split <;> norm_num

lemma tendsto_T_div_nat (T : ℝ) : Tendsto (fun N : ℕ => T / (N : ℝ)) atTop (𝓝 0) := by
  simpa [mul_one_div] using tendsto_one_div_atTop_nhds_zero_nat.const_mul T

lemma tendsto_ceil_mul (T : ℝ) (hT0 : 0 < T) :
    Tendsto (fun N : ℕ => (⌈(N : ℝ) / T⌉₊ : ℝ) * (T / (N : ℝ))) atTop (𝓝 1) := by
  apply tendsto_of_tendsto_of_tendsto_of_le_of_le' tendsto_const_nhds
    (by simpa using tendsto_const_nhds.add (tendsto_T_div_nat T))
  · filter_upwards [eventually_gt_atTop 0] with N hN
    have hN0 : (0 : ℝ) < (N : ℝ) := by exact_mod_cast hN
    have h1 : (N : ℝ) / T * (T / (N : ℝ)) = 1 := by field_simp
    calc (1 : ℝ) = (N : ℝ) / T * (T / (N : ℝ)) := h1.symm
      _ ≤ (⌈(N : ℝ) / T⌉₊ : ℝ) * (T / (N : ℝ)) :=
          mul_le_mul_of_nonneg_right (Nat.le_ceil _) (by positivity)
  · filter_upwards [eventually_gt_atTop 0] with N hN
    have hN0 : (0 : ℝ) < (N : ℝ) := by exact_mod_cast hN
    calc (⌈(N : ℝ) / T⌉₊ : ℝ) * (T / (N : ℝ))
        ≤ ((N : ℝ) / T + 1) * (T / (N : ℝ)) :=
          mul_le_mul_of_nonneg_right (Nat.ceil_lt_add_one (by positivity)).le (by positivity)
      _ = 1 + T / (N : ℝ) := by field_simp

lemma tendsto_div_exp_sub_one (z : ℂ) (hz : z ≠ 0) (T : ℝ) (hT0 : 0 < T) :
    Tendsto (fun N : ℕ => ((T / (N : ℝ) : ℝ) : ℂ) / (Complex.exp (z * ((T / (N : ℝ) : ℝ) : ℂ)) - 1))
      atTop (𝓝 z⁻¹) := by
  have hderiv : HasDerivAt (fun u : ℂ => Complex.exp (z * u)) z 0 := by
    have h1 : HasDerivAt (fun u : ℂ => z * u) z 0 := by
      simpa using (hasDerivAt_id (0 : ℂ)).const_mul z
    simpa using h1.cexp
  rw [hasDerivAt_iff_tendsto_slope] at hderiv
  have hcast : Tendsto (fun N : ℕ => ((T / (N : ℝ) : ℝ) : ℂ)) atTop (𝓝[≠] (0 : ℂ)) := by
    rw [tendsto_nhdsWithin_iff]
    constructor
    · have h0 := (Complex.continuous_ofReal.tendsto 0).comp (tendsto_T_div_nat T)
      rw [Complex.ofReal_zero] at h0
      exact h0
    · filter_upwards [eventually_gt_atTop 0] with N hN
      have hN0 : (0 : ℝ) < (N : ℝ) := by exact_mod_cast hN
      have hpos : (0 : ℝ) < T / (N : ℝ) := by positivity
      simp only [Set.mem_compl_iff, Set.mem_singleton_iff]
      exact_mod_cast hpos.ne'
  have hslope := hderiv.comp hcast
  have hslope' : Tendsto
      (fun N : ℕ => (Complex.exp (z * ((T / (N : ℝ) : ℝ) : ℂ)) - 1) / ((T / (N : ℝ) : ℝ) : ℂ))
      atTop (𝓝 z) := by
    apply hslope.congr
    intro N
    simp [Function.comp, slope_def_field, Complex.exp_zero]
  have hinv := hslope'.inv₀ hz
  apply hinv.congr
  intro N
  rw [inv_div]

lemma exp_w_ne_one (n : ℤ) (hn : n ≠ 0) (N : ℕ) (hN : n.natAbs < N) :
    Complex.exp (-Complex.I * 2 * (π : ℂ) * (n : ℂ) / (N : ℂ)) ≠ 1 := by
  intro h
  rw [Complex.exp_eq_one_iff] at h
  obtain ⟨k, hk⟩ := h
  have hNpos : 0 < N := by omega
  have hNne : ((N : ℕ) : ℂ) ≠ 0 := Nat.cast_ne_zero.mpr hNpos.ne'
  have h1 : -Complex.I * 2 * (π : ℂ) * (n : ℂ) = (k : ℂ) * (2 * (π : ℂ) * Complex.I) * (N : ℂ) := by
    have h2 := congrArg (fun x : ℂ => x * (N : ℂ)) hk
    simpa [div_mul_cancel₀, hNne] using h2
  have hfactor : (2 * (π : ℂ) * Complex.I) ≠ 0 :=
    mul_ne_zero (mul_ne_zero two_ne_zero (by exact_mod_cast Real.pi_ne_zero)) Complex.I_ne_zero
  have h3 : (2 * (π : ℂ) * Complex.I) * (-(n : ℂ)) = (2 * (π : ℂ) * Complex.I) * ((k : ℂ) * (N : ℂ)) := by
    linear_combination h1
  have h4 : (-(n : ℂ)) = (k : ℂ) * (N : ℂ) := mul_left_cancel₀ hfactor h3
  have h5 : -n = k * (N : ℤ) := by exact_mod_cast h4
  rcases eq_or_ne k 0 with hk0 | hk0
  · rw [hk0] at h5
    simp at h5
    exact hn (by omega)
  · have h6 : n.natAbs = k.natAbs * N := by
      have := congrArg Int.natAbs h5
      simpa [Int.natAbs_mul] using this
    have h7 : 1 ≤ k.natAbs := Int.natAbs_pos.mpr hk0
    have h8 : N ≤ k.natAbs * N := Nat.le_mul_of_pos_left N (by omega)
    omega

lemma trapz_tendsto (T : ℝ) (n : ℤ) (hT : 1 ≤ T) :
    Tendsto (fun N : ℕ => trapz (integrand T n N) (t_int T N) N) atTop
      (𝓝 (continuous_transform_rect ((n : ℝ) / T))) := by
  have hT0 : (0 : ℝ) < T := lt_of_lt_of_le one_pos hT
  have hbound : Tendsto
      (fun N : ℕ => ((T / (N : ℝ) : ℝ) : ℂ) *
        ((integrand T n N 0 + integrand T n N (N - 1)) / 2))
      atTop (𝓝 0) := by
    apply squeeze_zero_norm ?_ (tendsto_T_div_nat T)
    intro N
    have hc : ‖((T / (N : ℝ) : ℝ) : ℂ)‖ = T / (N : ℝ) := by
      rw [Complex.norm_real, Real.norm_eq_abs, abs_of_nonneg (by positivity)]
    have hB : ‖(integrand T n N 0 + integrand T n N (N - 1)) / 2‖ ≤ 1 := by
      rw [norm_div]
      have h01 : ‖integrand T n N 0‖ ≤ 1 := by
        rw [Complex.norm_eq_abs]
        exact norm_integrand_le T n N 0
      have h02 : ‖integrand T n N (N - 1)‖ ≤ 1 := by
        rw [Complex.norm_eq_abs]
        exact norm_integrand_le T n N (N - 1)
      have h2 : ‖(2 : ℂ)‖ = 2 := by simp
      rw [h2, div_le_one (by norm_num : (0:ℝ) < 2)]
      calc ‖integrand T n N 0 + integrand T n N (N - 1)‖
          ≤ ‖integrand T n N 0‖ + ‖integrand T n N (N - 1)‖ := norm_add_le _ _
        _ ≤ 2 := by linarith
    rw [norm_mul, hc]
    calc T / (N : ℝ) * ‖(integrand T n N 0 + integrand T n N (N - 1)) / 2‖
        ≤ T / (N : ℝ) * 1 := mul_le_mul_of_nonneg_left hB (by positivity)
      _ = T / (N : ℝ) := mul_one _
  have hsplit : ∀ᶠ N : ℕ in atTop,
      trapz (integrand T n N) (t_int T N) N
        = ((T / (N : ℝ) : ℝ) : ℂ) *
            (∑ k ∈ Finset.range ⌈(N : ℝ) / T⌉₊,
              Complex.exp (-Complex.I * 2 * (π : ℂ) * (n : ℂ) / (N : ℂ)) ^ k)
          - ((T / (N : ℝ) : ℝ) : ℂ) *
              ((integrand T n N 0 + integrand T n N (N - 1)) / 2) := by
    filter_upwards [eventually_ge_atTop 1] with N hN
    obtain ⟨M, rfl⟩ : ∃ M, N = M + 1 := ⟨N - 1, by omega⟩
    rw [trapz_uniform T (integrand T n (M + 1)) M,
      sum_integrand T n (M + 1) hT (by omega)]
    have hM1 : (M + 1 : ℕ) - 1 = M := by omega
    rw [hM1]
    push_cast
    ring
  rcases eq_or_ne n 0 with hn | hn
  · subst hn
    have hX : continuous_transform_rect (((0 : ℤ) : ℝ) / T) = 1 := by
      norm_num [continuous_transform_rect, T1]
    rw [hX]
    have hS : ∀ N : ℕ, (∑ k ∈ Finset.range ⌈(N : ℝ) / T⌉₊,
        Complex.exp (-Complex.I * 2 * (π : ℂ) * (((0 : ℤ) : ℤ) : ℂ) / (N : ℂ)) ^ k)
        = (⌈(N : ℝ) / T⌉₊ : ℂ) := by
      intro N
      have hw0 : -Complex.I * 2 * (π : ℂ) * (((0 : ℤ) : ℤ) : ℂ) / (N : ℂ) = 0 := by
        push_cast
        ring
      rw [hw0]
      simp [Complex.exp_zero]
    have hmain : Tendsto (fun N : ℕ =>
        ((T / (N : ℝ) : ℝ) : ℂ) * (⌈(N : ℝ) / T⌉₊ : ℂ)) atTop (𝓝 1) := by
      have h1 := (Complex.continuous_ofReal.tendsto 1).comp (tendsto_ceil_mul T hT0)
      rw [Complex.ofReal_one] at h1
      apply h1.congr
      intro N
      show ((((⌈(N : ℝ) / T⌉₊ : ℝ) * (T / (N : ℝ)) : ℝ)) : ℂ)
          = ((T / (N : ℝ) : ℝ) : ℂ) * (⌈(N : ℝ) / T⌉₊ : ℂ)
      push_cast
      ring
    have hfinal := hmain.sub hbound
    rw [sub_zero] at hfinal
    apply Tendsto.congr' ?_ hfinal
    filter_upwards [hsplit] with N hsN
    rw [hsN, hS N]
  · have hfne : ((n : ℝ) / T) ≠ 0 := by
      apply div_ne_zero _ hT0.ne'
      exact_mod_cast hn
    have hz : (-Complex.I * 2 * (π : ℂ) * (((n : ℝ) / T : ℝ) : ℂ)) ≠ 0 := by
      apply mul_ne_zero
      apply mul_ne_zero
      apply mul_ne_zero (neg_ne_zero.mpr Complex.I_ne_zero) two_ne_zero
      · exact_mod_cast Real.pi_ne_zero
      · exact_mod_cast hfne
    have hX : continuous_transform_rect ((n : ℝ) / T)
        = (Complex.exp (-Complex.I * 2 * (π : ℂ) * (((n : ℝ) / T : ℝ) : ℂ)) - 1)
          * (-Complex.I * 2 * (π : ℂ) * (((n : ℝ) / T : ℝ) : ℂ))⁻¹ := by
      unfold continuous_transform_rect
      rw [if_pos hfne]
      have hT1 : ((T1 : ℝ) : ℂ) = 1 := by norm_num [T1]
      rw [hT1, mul_one]
      ring
    have limA : Tendsto (fun N : ℕ =>
        Complex.exp ((-Complex.I * 2 * (π : ℂ) * (((n : ℝ) / T : ℝ) : ℂ))
          * ((((⌈(N : ℝ) / T⌉₊ : ℝ) * (T / (N : ℝ)) : ℝ)) : ℂ)) - 1) atTop
        (𝓝 (Complex.exp (-Complex.I * 2 * (π : ℂ) * (((n : ℝ) / T : ℝ) : ℂ)) - 1)) := by
      have h1 := (Complex.continuous_ofReal.tendsto 1).comp (tendsto_ceil_mul T hT0)
      rw [Complex.ofReal_one] at h1
      have h2 := h1.const_mul (-Complex.I * 2 * (π : ℂ) * (((n : ℝ) / T : ℝ) : ℂ))
      rw [mul_one] at h2
      have h3 := (Complex.continuous_exp.tendsto _).comp h2
      exact h3.sub_const 1
    have limB := tendsto_div_exp_sub_one
      (-Complex.I * 2 * (π : ℂ) * (((n : ℝ) / T : ℝ) : ℂ)) hz T hT0
    have limAB := limA.mul limB
    have hEq : (fun N : ℕ =>
        ((T / (N : ℝ) : ℝ) : ℂ) *
            (∑ k ∈ Finset.range ⌈(N : ℝ) / T⌉₊,
              Complex.exp (-Complex.I * 2 * (π : ℂ) * (n : ℂ) / (N : ℂ)) ^ k))
          =ᶠ[atTop] (fun N : ℕ =>
            (Complex.exp ((-Complex.I * 2 * (π : ℂ) * (((n : ℝ) / T : ℝ) : ℂ))
              * ((((⌈(N : ℝ) / T⌉₊ : ℝ) * (T / (N : ℝ)) : ℝ)) : ℂ)) - 1)
            * (((T / (N : ℝ) : ℝ) : ℂ) /
                (Complex.exp ((-Complex.I * 2 * (π : ℂ) * (((n : ℝ) / T : ℝ) : ℂ))
                  * ((T / (N : ℝ) : ℝ) : ℂ)) - 1))) := by
      filter_upwards [eventually_ge_atTop (n.natAbs + 1)] with N hNge
      have hNa : n.natAbs < N := by omega
      have hNneN : ((N : ℕ) : ℂ) ≠ 0 := Nat.cast_ne_zero.mpr (by omega)
      have hTneC : ((T : ℝ) : ℂ) ≠ 0 := by exact_mod_cast hT0.ne'
      have hwz : -Complex.I * 2 * (π : ℂ) * (n : ℂ) / (N : ℂ)
          = (-Complex.I * 2 * (π : ℂ) * (((n : ℝ) / T : ℝ) : ℂ)) * ((T / (N : ℝ) : ℝ) : ℂ) := by
        push_cast
        field_simp
        ring
      have hr := exp_w_ne_one n hn N hNa
      rw [hwz] at hr
      rw [hwz, geom_sum_eq hr, ← Complex.exp_nat_mul]
      rw [show ((⌈(N : ℝ) / T⌉₊ : ℕ) : ℂ) *
            ((-Complex.I * 2 * (π : ℂ) * (((n : ℝ) / T : ℝ) : ℂ)) * ((T / (N : ℝ) : ℝ) : ℂ))
          = (-Complex.I * 2 * (π : ℂ) * (((n : ℝ) / T : ℝ) : ℂ))
            * ((((⌈(N : ℝ) / T⌉₊ : ℝ) * (T / (N : ℝ)) : ℝ)) : ℂ) by push_cast; ring]
      ring
    have hmain := Tendsto.congr' hEq.symm limAB
    have hfinal := hmain.sub hbound
    rw [sub_zero] at hfinal
    rw [hX]
    apply Tendsto.congr' ?_ hfinal
    filter_upwards [hsplit] with N hsN
    rw [hsN]

/-- C6: for every period `T ≥ 1` and every harmonic `n`, the magnitude of the
trapezoidal Fourier-series coefficient `|Cn|` converges to the scaled
continuous-transform magnitude `|X(n/T)|/T` (the overlay `Xf_mag / T`) as the
number of integration samples grows (the script evaluates the finite stage
`N = 10001` of this sequence). -/
theorem Cn_abs_tendsto (T : ℝ) (n : ℤ) (hT : 1 ≤ T) :
    Tendsto (fun N : ℕ => Complex.abs (Cn T n N)) atTop
      (𝓝 (Complex.abs (continuous_transform_rect ((n : ℝ) / T)) / T)) := by
  have hT0 : (0 : ℝ) < T := lt_of_lt_of_le one_pos hT
  have h1 : Tendsto (fun N : ℕ => Cn T n N) atTop
      (𝓝 (((1 / T : ℝ) : ℂ) * continuous_transform_rect ((n : ℝ) / T))) := by
    have h2 := (trapz_tendsto T n hT).const_mul ((1 / T : ℝ) : ℂ)
    apply h2.congr
    intro N
    rw [Cn_eq_trapz]
  have h3 := (Complex.continuous_abs.tendsto _).comp h1
  have h4 : Complex.abs (((1 / T : ℝ) : ℂ) * continuous_transform_rect ((n : ℝ) / T))
      = Complex.abs (continuous_transform_rect ((n : ℝ) / T)) / T := by
    rw [map_mul, Complex.abs_ofReal, abs_of_pos (by positivity : (0 : ℝ) < 1 / T),
      one_div, inv_mul_eq_div]
  rw [h4] at h3
  exact h3

/-- Witness for C6 at `T = 4`, `n = 3`. -/
theorem Cn_abs_tendsto_witness :
    (1 : ℝ) ≤ 4 ∧
    Tendsto (fun N : ℕ => Complex.abs (Cn 4 3 N)) atTop
      (𝓝 (Complex.abs (continuous_transform_rect (((3 : ℤ) : ℝ) / 4)) / 4)) :=
  ⟨by norm_num, Cn_abs_tendsto 4 3 (by norm_num)⟩

end FourierLimit
